import Mathlib

/-!
Shallow embedding of the elevator control system (`elevator.py`).

The `Elevator` class is embedded as the structure `ElevatorState`; each
method becomes a pure function.  Methods that can raise return a pair of
the resulting state and an optional error: a Python exception propagates
to the caller while the object keeps every mutation performed before the
raise, so the error value is paired with the partially-mutated state.
The observer is the default no-op observer, which has no state effect.
-/

namespace ElevatorSystem

/-- `ElevatorDirection` enum from `elevator.py`: DOWN = -1, IDLE = 0, UP = 1. -/
inductive ElevatorDirection where
  | DOWN
  | IDLE
  | UP
  deriving DecidableEq, Repr

/-- The numeric `value` of an `ElevatorDirection` member. -/
def ElevatorDirection.value : ElevatorDirection → Int
  | .DOWN => -1
  | .IDLE => 0
  | .UP => 1

/-- The exceptions of `elevator_exceptions.py`, plus Python's `ValueError`
(raised by `list.remove` when the element is absent). -/
inductive ElevErr where
  | floorOutOfRange
  | elevatorFull
  | doorsClosed
  | floorsMismatch
  | passengerNotFound
  | openedWhileMoving
  | movedWithOpenDoors
  | valueError
  deriving DecidableEq, Repr

/-- A `Passenger`: identity is the process-wide unique id `pid`;
`current_floor` and `destination_floor` are fixed at construction. -/
structure Passenger where
  pid : Nat
  current_floor : Int
  destination_floor : Int
  deriving DecidableEq, Repr

/-- The mutable fields of the `Elevator` object.  `passengers` is a Python
set of objects: modelled as a duplicate-free list of `Passenger`. -/
structure ElevatorState where
  floors_count : Int
  max_capacity : Nat
  current_floor : Int
  queue : List Int
  direction : ElevatorDirection
  passengers : List Passenger
  is_open : Bool
  is_moving : Bool
  deriving DecidableEq, Repr

/-- `Elevator.__init__`: doors closed, not moving, floor 1, empty queue,
direction IDLE, no passengers. -/
def initElevator (max_capacity : Nat) (floors_count : Int) : ElevatorState :=
  { floors_count := floors_count
    max_capacity := max_capacity
    current_floor := 1
    queue := []
    direction := ElevatorDirection.IDLE
    passengers := []
    is_open := false
    is_moving := false }

/-- `Elevator._move_up`: `current_floor = min(current_floor + 1, floors_count)`. -/
def move_up (s : ElevatorState) : ElevatorState :=
  { s with current_floor := min (s.current_floor + 1) s.floors_count }

/-- `Elevator._move_down`: `current_floor = max(current_floor - 1, 1)`. -/
def move_down (s : ElevatorState) : ElevatorState :=
  { s with current_floor := max (s.current_floor - 1) 1 }

/-- The direction computed by `Elevator._update_direction`: IDLE when the
queue is empty, UP/DOWN when the queue head is above/below the current
floor, and the previous direction when the head equals the current floor. -/
def new_direction (s : ElevatorState) : ElevatorDirection :=
  match s.queue with
  | [] => ElevatorDirection.IDLE
  | q0 :: _ =>
    if s.current_floor < q0 then ElevatorDirection.UP
    else if q0 < s.current_floor then ElevatorDirection.DOWN
    else s.direction

/-- `Elevator._update_direction`. -/
def update_direction (s : ElevatorState) : ElevatorState :=
  { s with direction := new_direction s }

/-- `Elevator._open_the_doors`: raises `ElevatorIsOpenedTheDoorsWhileMoving`
if moving; otherwise removes the current floor from the queue
(`list.remove`, raising `ValueError` when absent) and opens the doors. -/
def open_the_doors (s : ElevatorState) : ElevatorState × Option ElevErr :=
  if s.is_moving then (s, some ElevErr.openedWhileMoving)
  else if s.current_floor ∈ s.queue then
    ({ s with queue := s.queue.erase s.current_floor, is_open := true }, none)
  else (s, some ElevErr.valueError)

/-- `Elevator._close_the_doors`. -/
def close_the_doors (s : ElevatorState) : ElevatorState :=
  { s with is_open := false }

/-- `Elevator._stop_moving`. -/
def stop_moving (s : ElevatorState) : ElevatorState :=
  { s with is_moving := false }

/-- `Elevator._start_moving`: raises `ElevatorIsMoveWithOpenDoors` if the
doors are open. -/
def start_moving (s : ElevatorState) : ElevatorState × Option ElevErr :=
  if s.is_open then (s, some ElevErr.movedWithOpenDoors)
  else ({ s with is_moving := true }, none)

/-- The `key_func` closure inside `Elevator._sort_queue`: for direction
value `d`, current floor `c` and `floors_count` `n`, the key of a queued
floor `f` is `d*(f-c)` when `d*(f-c) > 0` and `d*(c-f) + n` otherwise. -/
def key_func (d c n f : Int) : Int :=
  if d * (f - c) > 0 then d * (f - c) else d * (c - f) + n

/-- Stable insertion into a list sorted ascending by key (an element is
placed before every later element whose key is not smaller). -/
def insertLe (k : Int → Int) (x : Int) : List Int → List Int
  | [] => [x]
  | y :: ys => if k x ≤ k y then x :: y :: ys else y :: insertLe k x ys

/-- Stable ascending sort by key, modelling Python's stable `list.sort(key=...)`. -/
def sortByKey (k : Int → Int) : List Int → List Int
  | [] => []
  | x :: xs => insertLe k x (sortByKey k xs)

/-- `Elevator._sort_queue`: sort the queue ascending by `key_func`. -/
def sort_queue (s : ElevatorState) : ElevatorState :=
  { s with queue :=
      sortByKey (key_func s.direction.value s.current_floor s.floors_count) s.queue }

/-- The insertion step of `Elevator.call_floor`: `if floor not in
self._queue and floor: self._queue.append(floor); self._sort_queue()`. -/
def call_floor_insert (floor : Int) (s : ElevatorState) : ElevatorState :=
  if floor ∉ s.queue ∧ floor ≠ 0 then sort_queue { s with queue := s.queue ++ [floor] }
  else s

/-- `Elevator.call_floor`: range check, optional insertion + re-sort, and,
when the stored direction is IDLE, a direction update followed by an
immediate door opening when the elevator is already at the called floor. -/
def call_floor (floor : Int) (s : ElevatorState) : ElevatorState × Option ElevErr :=
  if floor < 1 ∨ floor > s.floors_count then (s, some ElevErr.floorOutOfRange)
  else if (call_floor_insert floor s).direction = ElevatorDirection.IDLE then
    (if (update_direction (call_floor_insert floor s)).current_floor = floor then
      open_the_doors (update_direction (call_floor_insert floor s))
    else (update_direction (call_floor_insert floor s), none))
  else (call_floor_insert floor s, none)

/-- The door-closing + direction-update prelude of `Elevator.move`. -/
def move_phase1 (s : ElevatorState) : ElevatorState :=
  update_direction (if s.is_open then close_the_doors s else s)

/-- The one-floor advance of `Elevator.move`: `_move_up` when UP,
`_move_down` when DOWN. -/
def move_step (s : ElevatorState) : ElevatorState :=
  if s.direction = ElevatorDirection.UP then move_up s
  else if s.direction = ElevatorDirection.DOWN then move_down s
  else s

/-- The final step of `Elevator.move`: if the current floor is in the
queue, stop moving and open the doors. -/
def arrival_check (s : ElevatorState) : ElevatorState × Option ElevErr :=
  if s.current_floor ∈ s.queue then open_the_doors (stop_moving s)
  else (s, none)

/-- `Elevator.move`: close doors if open, update direction, start moving
and advance one floor when not IDLE, then stop and open when the current
floor is queued.  An error from `_start_moving` propagates immediately. -/
def move (s : ElevatorState) : ElevatorState × Option ElevErr :=
  if (move_phase1 s).direction = ElevatorDirection.IDLE then
    arrival_check (move_phase1 s)
  else
    match start_moving (move_phase1 s) with
    | (s3, some e) => (s3, some e)
    | (s3, none) => arrival_check (move_step s3)

/-- `Elevator.append_passenger`: full check, doors check, floor-mismatch
check, then `set.add` (no duplicate insertion) of the passenger. -/
def append_passenger (p : Passenger) (s : ElevatorState) : ElevatorState × Option ElevErr :=
  if s.passengers.length = s.max_capacity then (s, some ElevErr.elevatorFull)
  else if s.is_open = false then (s, some ElevErr.doorsClosed)
  else if s.current_floor ≠ p.current_floor then (s, some ElevErr.floorsMismatch)
  else
    ({ s with passengers :=
        if p ∈ s.passengers then s.passengers else s.passengers ++ [p] }, none)

/-- `Elevator.remove_passenger`: membership check, then `set.remove`. -/
def remove_passenger (p : Passenger) (s : ElevatorState) : ElevatorState × Option ElevErr :=
  if p ∉ s.passengers then (s, some ElevErr.passengerNotFound)
  else ({ s with passengers := s.passengers.erase p }, none)

/-- `Passenger.enter_elevator`: `append_passenger` then `call_floor` on the
destination; a failure of the first call skips the second. -/
def enter_elevator (p : Passenger) (s : ElevatorState) : ElevatorState × Option ElevErr :=
  match append_passenger p s with
  | (s1, some e) => (s1, some e)
  | (s1, none) => call_floor p.destination_floor s1

/-- A public operation invoked by a driver of the elevator. -/
inductive ElevOp where
  | callFloor (floor : Int)
  | moveOp
  | appendPassenger (p : Passenger)
  | removePassenger (p : Passenger)
  deriving DecidableEq, Repr

/-- Apply one public operation; a raised exception propagates to the
driver while the elevator keeps the state reached at the raise. -/
def apply_op (op : ElevOp) (s : ElevatorState) : ElevatorState :=
  match op with
  | .callFloor f => (call_floor f s).1
  | .moveOp => (move s).1
  | .appendPassenger p => (append_passenger p s).1
  | .removePassenger p => (remove_passenger p s).1

/-- Run a sequence of public operations. -/
def run (s : ElevatorState) : List ElevOp → ElevatorState
  | [] => s
  | op :: ops => run (apply_op op s) ops

/-- The state reached by `(move s)`, discarding the (always-`none`) error. -/
def move1 (s : ElevatorState) : ElevatorState := (move s).1

/-- Iterated `move`. -/
def moveN : Nat → ElevatorState → ElevatorState
  | 0, s => s
  | n + 1, s => moveN n (move1 s)

/-- Invariant of every state reachable from the initial state by public
operations: an IDLE direction only with an empty queue, motion only with
a non-IDLE direction and pending stops, doors never open while moving, a
duplicate-free in-range queue, passengers within capacity, and the
current floor at least 1 and at most `floors_count` (or still the initial
floor 1 when `floors_count < 1` makes every call fail). -/
structure Inv (s : ElevatorState) : Prop where
  idle_empty : s.direction = ElevatorDirection.IDLE → s.queue = []
  moving_dir : s.is_moving = true → s.direction ≠ ElevatorDirection.IDLE
  moving_queue : s.is_moving = true → s.queue ≠ []
  excl : s.is_moving = false ∨ s.is_open = false
  nodup : s.queue.Nodup
  cap_le : s.passengers.length ≤ s.max_capacity
  queue_range : ∀ f, f ∈ s.queue → 1 ≤ f ∧ f ≤ s.floors_count
  floor_lb : 1 ≤ s.current_floor
  floor_ub : s.current_floor ≤ s.floors_count ∨ s.current_floor = 1

/-- The immutable construction parameters of the elevator. -/
def frame (s : ElevatorState) : Int × Nat := (s.floors_count, s.max_capacity)

/-- The sort-correctness scenario of the spec: floors_count 20, current
floor 10, direction Up, queue `[15, 12, 17, 3, 8]`. -/
def c1Scenario : ElevatorState :=
  { floors_count := 20, max_capacity := 8, current_floor := 10,
    queue := [15, 12, 17, 3, 8], direction := ElevatorDirection.UP,
    passengers := [], is_open := false, is_moving := false }

/-- The end-to-end scenario of the spec: floors_count 20, current floor 1,
doors closed, queue `[5, 7, 10]`. -/
def c2Start : ElevatorState :=
  { floors_count := 20, max_capacity := 8, current_floor := 1,
    queue := [5, 7, 10], direction := ElevatorDirection.IDLE,
    passengers := [], is_open := false, is_moving := false }

/-- An elevator with open doors at floor 1 of 10, far from capacity. -/
def c10State : ElevatorState :=
  { floors_count := 10, max_capacity := 8, current_floor := 1, queue := [],
    direction := ElevatorDirection.IDLE, passengers := [], is_open := true,
    is_moving := false }

/-! ### Basic facts about the helper operations -/

@[simp] theorem sort_queue_direction (s : ElevatorState) :
    (sort_queue s).direction = s.direction := rfl

@[simp] theorem sort_queue_current_floor (s : ElevatorState) :
    (sort_queue s).current_floor = s.current_floor := rfl

@[simp] theorem sort_queue_floors_count (s : ElevatorState) :
    (sort_queue s).floors_count = s.floors_count := rfl

@[simp] theorem sort_queue_max_capacity (s : ElevatorState) :
    (sort_queue s).max_capacity = s.max_capacity := rfl

@[simp] theorem sort_queue_passengers (s : ElevatorState) :
    (sort_queue s).passengers = s.passengers := rfl

@[simp] theorem sort_queue_is_open (s : ElevatorState) :
    (sort_queue s).is_open = s.is_open := rfl

@[simp] theorem sort_queue_is_moving (s : ElevatorState) :
    (sort_queue s).is_moving = s.is_moving := rfl

@[simp] theorem update_direction_queue (s : ElevatorState) :
    (update_direction s).queue = s.queue := rfl

@[simp] theorem update_direction_current_floor (s : ElevatorState) :
    (update_direction s).current_floor = s.current_floor := rfl

@[simp] theorem update_direction_floors_count (s : ElevatorState) :
    (update_direction s).floors_count = s.floors_count := rfl

@[simp] theorem update_direction_max_capacity (s : ElevatorState) :
    (update_direction s).max_capacity = s.max_capacity := rfl

@[simp] theorem update_direction_passengers (s : ElevatorState) :
    (update_direction s).passengers = s.passengers := rfl

@[simp] theorem update_direction_is_open (s : ElevatorState) :
    (update_direction s).is_open = s.is_open := rfl

@[simp] theorem update_direction_is_moving (s : ElevatorState) :
    (update_direction s).is_moving = s.is_moving := rfl

@[simp] theorem update_direction_direction (s : ElevatorState) :
    (update_direction s).direction = new_direction s := rfl

theorem new_direction_of_nil (s : ElevatorState) (h : s.queue = []) :
    new_direction s = ElevatorDirection.IDLE := by
  unfold new_direction
  rw [h]

theorem queue_ne_nil_of_new_direction_ne_idle (s : ElevatorState)
    (h : new_direction s ≠ ElevatorDirection.IDLE) : s.queue ≠ [] := by
  intro hq
  exact h (new_direction_of_nil s hq)

theorem new_direction_cases (s : ElevatorState) :
    new_direction s = ElevatorDirection.UP ∨ new_direction s = ElevatorDirection.DOWN ∨
    (new_direction s = ElevatorDirection.IDLE ∧ s.queue = []) ∨
    new_direction s = s.direction := by
  unfold new_direction
  rcases hq : s.queue with _ | ⟨q0, qs⟩
  · exact Or.inr (Or.inr (Or.inl ⟨rfl, rfl⟩))
  · dsimp only
    split_ifs
    · exact Or.inl rfl
    · exact Or.inr (Or.inl rfl)
    · exact Or.inr (Or.inr (Or.inr rfl))

theorem new_direction_idle_elim (s : ElevatorState)
    (h : new_direction s = ElevatorDirection.IDLE) :
    s.queue = [] ∨ s.direction = ElevatorDirection.IDLE := by
  rcases new_direction_cases s with h1 | h1 | ⟨_, h1⟩ | h1
  · rw [h1] at h; cases h
  · rw [h1] at h; cases h
  · exact Or.inl h1
  · exact Or.inr (h1 ▸ h)

theorem insertLe_perm (k : Int → Int) (x : Int) (l : List Int) :
    List.Perm (insertLe k x l) (x :: l) := by
  induction l with
  | nil => exact List.Perm.refl _
  | cons y ys ih =>
    unfold insertLe
    split
    · exact List.Perm.refl _
    · exact (List.Perm.cons y ih).trans (List.Perm.swap x y ys)

theorem sortByKey_perm (k : Int → Int) (l : List Int) :
    List.Perm (sortByKey k l) l := by
  induction l with
  | nil => exact List.Perm.refl _
  | cons x xs ih => exact (insertLe_perm k x (sortByKey k xs)).trans (List.Perm.cons x ih)

theorem sortByKey_mem (k : Int → Int) (l : List Int) (x : Int) :
    x ∈ sortByKey k l ↔ x ∈ l :=
  (sortByKey_perm k l).mem_iff

theorem sortByKey_nodup (k : Int → Int) (l : List Int) (h : l.Nodup) :
    (sortByKey k l).Nodup :=
  ((sortByKey_perm k l).nodup_iff).2 h

theorem sortByKey_ne_nil (k : Int → Int) (l : List Int) (h : l ≠ []) :
    sortByKey k l ≠ [] := by
  intro hc
  have := (sortByKey_perm k l).length_eq
  rw [hc] at this
  exact h (List.length_eq_zero.1 this.symm)

theorem insertLe_pairwise (k : Int → Int) (x : Int) (l : List Int)
    (h : l.Pairwise (fun a b => k a ≤ k b)) :
    (insertLe k x l).Pairwise (fun a b => k a ≤ k b) := by
  induction l with
  | nil => simp [insertLe]
  | cons y ys ih =>
    rcases List.pairwise_cons.1 h with ⟨hy, hys⟩
    unfold insertLe
    split
    · next hxy =>
      refine List.pairwise_cons.2 ⟨?_, h⟩
      intro b hb
      rcases List.mem_cons.1 hb with rfl | hb2
      · exact hxy
      · exact le_trans hxy (hy b hb2)
    · next hxy =>
      refine List.pairwise_cons.2 ⟨?_, ih hys⟩
      intro b hb
      rcases List.mem_cons.1 ((insertLe_perm k x ys).mem_iff.1 hb) with rfl | hb2
      · exact le_of_not_le hxy
      · exact hy b hb2

theorem sortByKey_pairwise (k : Int → Int) (l : List Int) :
    (sortByKey k l).Pairwise (fun a b => k a ≤ k b) := by
  induction l with
  | nil => simp [sortByKey]
  | cons x xs ih => exact insertLe_pairwise k x _ ih

/-- On in-range floors the sort key is injective when the direction value
is `1` or `-1`: keys of floors ahead stay below `floors_count`, keys of
floors behind stay at or above it. -/
theorem key_func_inj (d c n a b : Int) (hd : d = 1 ∨ d = -1)
    (ha1 : 1 ≤ a) (ha2 : a ≤ n) (hb1 : 1 ≤ b) (hb2 : b ≤ n)
    (h : key_func d c n a = key_func d c n b) : a = b := by
  unfold key_func at h
  rcases hd with rfl | rfl <;> split_ifs at h <;> omega

/-! ### The reachability invariant -/

theorem inv_init (cap : Nat) (n : Int) : Inv (initElevator cap n) := by
  refine ⟨?_, ?_, ?_, ?_, ?_, ?_, ?_, ?_, ?_⟩ <;> simp [initElevator]

theorem inv_open_the_doors (s : ElevatorState) (hs : Inv s) :
    Inv (open_the_doors s).1 := by
  unfold open_the_doors
  split
  · exact hs
  next hmov =>
    have hmovf : s.is_moving = false := Bool.eq_false_iff.2 hmov
    split
    next hmem =>
      refine ⟨?_, ?_, ?_, ?_, ?_, ?_, ?_, ?_, ?_⟩ <;> dsimp only
      · intro hdir
        rw [hs.idle_empty hdir] at hmem
        exact absurd hmem (List.not_mem_nil _)
      · intro hm; rw [hmovf] at hm; cases hm
      · intro hm; rw [hmovf] at hm; cases hm
      · exact Or.inl hmovf
      · exact hs.nodup.erase _
      · exact hs.cap_le
      · intro g hg; exact hs.queue_range g (List.mem_of_mem_erase hg)
      · exact hs.floor_lb
      · exact hs.floor_ub
    next hmem => exact hs

theorem inv_stop_moving (s : ElevatorState) (hs : Inv s) : Inv (stop_moving s) := by
  refine ⟨?_, ?_, ?_, ?_, ?_, ?_, ?_, ?_, ?_⟩ <;> dsimp only [stop_moving]
  · exact hs.idle_empty
  · intro hm; cases hm
  · intro hm; cases hm
  · exact Or.inl rfl
  · exact hs.nodup
  · exact hs.cap_le
  · exact hs.queue_range
  · exact hs.floor_lb
  · exact hs.floor_ub

theorem inv_arrival_check (s : ElevatorState) (hs : Inv s) :
    Inv (arrival_check s).1 := by
  unfold arrival_check
  split
  · exact inv_open_the_doors _ (inv_stop_moving s hs)
  · exact hs

theorem inv_close_the_doors (s : ElevatorState) (hs : Inv s) :
    Inv (close_the_doors s) :=
  ⟨hs.idle_empty, hs.moving_dir, hs.moving_queue, Or.inr rfl, hs.nodup,
   hs.cap_le, hs.queue_range, hs.floor_lb, hs.floor_ub⟩

theorem inv_update_direction (s : ElevatorState) (hs : Inv s) :
    Inv (update_direction s) := by
  refine ⟨?_, ?_, ?_, hs.excl, hs.nodup, hs.cap_le, hs.queue_range,
    hs.floor_lb, hs.floor_ub⟩
  · intro hdir
    rcases new_direction_idle_elim s hdir with h | h
    · exact h
    · exact hs.idle_empty h
  · intro hm hdir
    rcases new_direction_idle_elim s hdir with h | h
    · exact hs.moving_queue hm h
    · exact hs.moving_dir hm h
  · intro hm; exact hs.moving_queue hm

theorem inv_move_phase1 (s : ElevatorState) (hs : Inv s) : Inv (move_phase1 s) := by
  unfold move_phase1
  split
  · exact inv_update_direction _ (inv_close_the_doors s hs)
  · exact inv_update_direction s hs

theorem move_phase1_is_open (s : ElevatorState) : (move_phase1 s).is_open = false := by
  unfold move_phase1
  split
  · rfl
  next h => exact Bool.eq_false_iff.2 h

theorem move_phase1_queue (s : ElevatorState) : (move_phase1 s).queue = s.queue := by
  unfold move_phase1
  split <;> rfl

theorem move_phase1_current_floor (s : ElevatorState) :
    (move_phase1 s).current_floor = s.current_floor := by
  unfold move_phase1
  split <;> rfl

theorem move_phase1_floors_count (s : ElevatorState) :
    (move_phase1 s).floors_count = s.floors_count := by
  unfold move_phase1
  split <;> rfl

theorem move_phase1_queue_ne_nil (s : ElevatorState)
    (h : (move_phase1 s).direction ≠ ElevatorDirection.IDLE) :
    (move_phase1 s).queue ≠ [] := by
  unfold move_phase1 at *
  exact queue_ne_nil_of_new_direction_ne_idle
    (if s.is_open then close_the_doors s else s) h

theorem inv_move_step (t : ElevatorState) (ht : Inv t) (hn : 1 ≤ t.floors_count)
    (hub : t.current_floor ≤ t.floors_count) : Inv (move_step t) := by
  unfold move_step
  split_ifs
  · refine ⟨ht.idle_empty, ht.moving_dir, ht.moving_queue, ht.excl, ht.nodup,
      ht.cap_le, ht.queue_range, ?_, ?_⟩ <;> dsimp only [move_up]
    · have := ht.floor_lb
      omega
    · left
      omega
  · refine ⟨ht.idle_empty, ht.moving_dir, ht.moving_queue, ht.excl, ht.nodup,
      ht.cap_le, ht.queue_range, ?_, ?_⟩ <;> dsimp only [move_down]
    · omega
    · have := ht.floor_lb
      left
      omega
  · exact ht

theorem inv_move (s : ElevatorState) (hs : Inv s) : Inv (move s).1 := by
  unfold move
  split
  · exact inv_arrival_check _ (inv_move_phase1 s hs)
  next hdir =>
    have hopen : (move_phase1 s).is_open = false := move_phase1_is_open s
    have hsm : start_moving (move_phase1 s) =
        ({ move_phase1 s with is_moving := true }, none) := by
      simp [start_moving, hopen]
    rw [hsm]
    dsimp only
    have hs2 : Inv (move_phase1 s) := inv_move_phase1 s hs
    have hqne : (move_phase1 s).queue ≠ [] := move_phase1_queue_ne_nil s hdir
    have hn : 1 ≤ (move_phase1 s).floors_count := by
      rcases hq : (move_phase1 s).queue with _ | ⟨q0, qs⟩
      · exact absurd hq hqne
      · have := hs2.queue_range q0 (by rw [hq]; exact List.mem_cons_self q0 qs)
        omega
    have hub : (move_phase1 s).current_floor ≤ (move_phase1 s).floors_count := by
      rcases hs2.floor_ub with h | h
      · exact h
      · omega
    have ht : Inv { move_phase1 s with is_moving := true } := by
      refine ⟨?_, ?_, ?_, ?_, ?_, ?_, ?_, ?_, ?_⟩ <;> dsimp only
      · intro hd; exact absurd hd hdir
      · intro _; exact hdir
      · intro _; exact hqne
      · exact Or.inr hopen
      · exact hs2.nodup
      · exact hs2.cap_le
      · exact hs2.queue_range
      · exact hs2.floor_lb
      · exact hs2.floor_ub
    exact inv_arrival_check _ (inv_move_step _ ht hn hub)

/-! ### Characterizations of `call_floor` -/

theorem call_floor_insert_of_mem (f : Int) (s : ElevatorState) (hf : f ∈ s.queue) :
    call_floor_insert f s = s := by
  unfold call_floor_insert
  rw [if_neg (by simp [hf])]

theorem call_floor_insert_of_not_mem (f : Int) (s : ElevatorState)
    (hf : f ∉ s.queue) (h0 : f ≠ 0) :
    call_floor_insert f s = sort_queue { s with queue := s.queue ++ [f] } := by
  unfold call_floor_insert
  rw [if_pos ⟨hf, h0⟩]

@[simp] theorem call_floor_insert_direction (f : Int) (s : ElevatorState) :
    (call_floor_insert f s).direction = s.direction := by
  unfold call_floor_insert
  split <;> rfl

@[simp] theorem call_floor_insert_current_floor (f : Int) (s : ElevatorState) :
    (call_floor_insert f s).current_floor = s.current_floor := by
  unfold call_floor_insert
  split <;> rfl

@[simp] theorem call_floor_insert_floors_count (f : Int) (s : ElevatorState) :
    (call_floor_insert f s).floors_count = s.floors_count := by
  unfold call_floor_insert
  split <;> rfl

@[simp] theorem call_floor_insert_is_moving (f : Int) (s : ElevatorState) :
    (call_floor_insert f s).is_moving = s.is_moving := by
  unfold call_floor_insert
  split <;> rfl

@[simp] theorem call_floor_insert_is_open (f : Int) (s : ElevatorState) :
    (call_floor_insert f s).is_open = s.is_open := by
  unfold call_floor_insert
  split <;> rfl

@[simp] theorem call_floor_insert_passengers (f : Int) (s : ElevatorState) :
    (call_floor_insert f s).passengers = s.passengers := by
  unfold call_floor_insert
  split <;> rfl

theorem sortByKey_singleton (k : Int → Int) (x : Int) : sortByKey k [x] = [x] := by
  simp [sortByKey, insertLe]

/-- `call_floor` on an out-of-range floor: `FloorOutOfRange`, state unchanged. -/
theorem call_floor_out_of_range (f : Int) (s : ElevatorState)
    (h : f < 1 ∨ f > s.floors_count) :
    call_floor f s = (s, some ElevErr.floorOutOfRange) := by
  unfold call_floor
  rw [if_pos h]

/-- `call_floor` with a non-IDLE stored direction only inserts and re-sorts. -/
theorem call_floor_not_idle (f : Int) (s : ElevatorState)
    (hdir : s.direction ≠ ElevatorDirection.IDLE)
    (hf1 : 1 ≤ f) (hf2 : f ≤ s.floors_count) :
    call_floor f s = (call_floor_insert f s, none) := by
  unfold call_floor
  rw [if_neg (by omega), if_neg (by simpa using hdir)]

/-- `call_floor` from an IDLE empty-queue state at the requested floor:
the doors open within the call and the queued floor is removed again. -/
theorem call_floor_idle_here (f : Int) (s : ElevatorState)
    (hq : s.queue = []) (hmov : s.is_moving = false)
    (hdir : s.direction = ElevatorDirection.IDLE)
    (hf1 : 1 ≤ f) (hf2 : f ≤ s.floors_count) (hcur : s.current_floor = f) :
    call_floor f s = ({ s with queue := [], is_open := true }, none) := by
  have hnm : f ∉ s.queue := by rw [hq]; exact List.not_mem_nil f
  have hins : call_floor_insert f s = sort_queue { s with queue := s.queue ++ [f] } :=
    call_floor_insert_of_not_mem f s hnm (by omega)
  unfold call_floor
  rw [if_neg (by omega : ¬(f < 1 ∨ f > s.floors_count)), hins, hq]
  simp only [List.nil_append]
  rw [if_pos (by simpa [sort_queue] using hdir)]
  rw [if_pos (by simp [sort_queue, hcur])]
  simp [open_the_doors, update_direction, new_direction, sort_queue,
    sortByKey_singleton, hmov, hcur, hdir, List.erase_cons_head]

/-- `call_floor` from an IDLE empty-queue state away from the requested
floor: the floor is queued and the direction recomputed. -/
theorem call_floor_idle_away (f : Int) (s : ElevatorState)
    (hq : s.queue = []) (hdir : s.direction = ElevatorDirection.IDLE)
    (hf1 : 1 ≤ f) (hf2 : f ≤ s.floors_count) (hcur : s.current_floor ≠ f) :
    call_floor f s = (update_direction (sort_queue { s with queue := [f] }), none) := by
  have hnm : f ∉ s.queue := by rw [hq]; exact List.not_mem_nil f
  have hins : call_floor_insert f s = sort_queue { s with queue := s.queue ++ [f] } :=
    call_floor_insert_of_not_mem f s hnm (by omega)
  unfold call_floor
  rw [if_neg (by omega : ¬(f < 1 ∨ f > s.floors_count)), hins, hq]
  simp only [List.nil_append]
  rw [if_pos (by simpa [sort_queue] using hdir)]
  rw [if_neg (by simpa [sort_queue] using hcur)]

theorem inv_call_floor (f : Int) (s : ElevatorState) (hs : Inv s) :
    Inv (call_floor f s).1 := by
  by_cases hr : f < 1 ∨ f > s.floors_count
  · rw [call_floor_out_of_range f s hr]
    exact hs
  · have hf1 : 1 ≤ f := by omega
    have hf2 : f ≤ s.floors_count := by omega
    by_cases hdir : s.direction = ElevatorDirection.IDLE
    · have hq : s.queue = [] := hs.idle_empty hdir
      have hmov : s.is_moving = false := by
        cases h : s.is_moving
        · rfl
        · exact absurd hdir (hs.moving_dir h)
      by_cases hcur : s.current_floor = f
      · rw [call_floor_idle_here f s hq hmov hdir hf1 hf2 hcur]
        refine ⟨?_, ?_, ?_, ?_, ?_, ?_, ?_, ?_, ?_⟩ <;> dsimp only
        · intro _; rfl
        · intro hm; rw [hmov] at hm; cases hm
        · intro hm; rw [hmov] at hm; cases hm
        · exact Or.inl hmov
        · exact List.nodup_nil
        · exact hs.cap_le
        · intro g hg; exact absurd hg (List.not_mem_nil g)
        · exact hs.floor_lb
        · exact hs.floor_ub
      · rw [call_floor_idle_away f s hq hdir hf1 hf2 hcur]
        dsimp only
        have hqu : (update_direction (sort_queue { s with queue := [f] })).queue = [f] := by
          simp [sort_queue, sortByKey_singleton]
        have hnd : (update_direction (sort_queue { s with queue := [f] })).direction ≠
            ElevatorDirection.IDLE := by
          simp only [update_direction_direction]
          unfold new_direction
          rw [show (sort_queue { s with queue := [f] }).queue = [f] from by
            simp [sort_queue, sortByKey_singleton]]
          dsimp only [sort_queue]
          split_ifs with h1 h2
          · simp
          · simp
          · omega
        refine ⟨?_, ?_, ?_, ?_, ?_, ?_, ?_, ?_, ?_⟩
        · intro hd; exact absurd hd hnd
        · intro _; exact hnd
        · intro _; rw [hqu]; simp
        · exact Or.inl hmov
        · rw [hqu]; exact List.nodup_singleton f
        · exact hs.cap_le
        · intro g hg
          rw [hqu] at hg
          rcases List.mem_singleton.1 hg with rfl
          exact ⟨hf1, hf2⟩
        · exact hs.floor_lb
        · exact hs.floor_ub
    · rw [call_floor_not_idle f s hdir hf1 hf2]
      dsimp only
      by_cases hmem : f ∈ s.queue
      · rw [call_floor_insert_of_mem f s hmem]
        exact hs
      · rw [call_floor_insert_of_not_mem f s hmem (by omega)]
        refine ⟨?_, ?_, ?_, ?_, ?_, ?_, ?_, ?_, ?_⟩
        · intro hd
          rw [sort_queue_direction] at hd
          exact absurd hd hdir
        · intro _
          rw [sort_queue_direction]
          exact hdir
        · intro _
          exact sortByKey_ne_nil _ _ (by simp)
        · exact hs.excl
        · exact sortByKey_nodup _ _ (by simp [List.nodup_append, hs.nodup, hmem])
        · exact hs.cap_le
        · intro g hg
          rcases List.mem_append.1 ((sortByKey_mem _ _ g).1 hg) with h | h
          · exact hs.queue_range g h
          · rcases List.mem_singleton.1 h with rfl
            exact ⟨hf1, hf2⟩
        · exact hs.floor_lb
        · exact hs.floor_ub

theorem inv_append_passenger (p : Passenger) (s : ElevatorState) (hs : Inv s) :
    Inv (append_passenger p s).1 := by
  unfold append_passenger
  split
  · exact hs
  next hcap =>
    split
    · exact hs
    · split
      · exact hs
      · refine ⟨hs.idle_empty, hs.moving_dir, hs.moving_queue, hs.excl, hs.nodup,
          ?_, hs.queue_range, hs.floor_lb, hs.floor_ub⟩
        dsimp only
        split
        · exact hs.cap_le
        · have := hs.cap_le
          simp only [List.length_append, List.length_singleton]
          omega

theorem inv_remove_passenger (p : Passenger) (s : ElevatorState) (hs : Inv s) :
    Inv (remove_passenger p s).1 := by
  unfold remove_passenger
  split
  · exact hs
  · refine ⟨hs.idle_empty, hs.moving_dir, hs.moving_queue, hs.excl, hs.nodup,
      ?_, hs.queue_range, hs.floor_lb, hs.floor_ub⟩
    dsimp only
    exact le_trans (List.erase_sublist p s.passengers).length_le hs.cap_le

theorem inv_apply_op (op : ElevOp) (s : ElevatorState) (hs : Inv s) :
    Inv (apply_op op s) := by
  cases op with
  | callFloor f => exact inv_call_floor f s hs
  | moveOp => exact inv_move s hs
  | appendPassenger p => exact inv_append_passenger p s hs
  | removePassenger p => exact inv_remove_passenger p s hs

theorem inv_run (s : ElevatorState) (ops : List ElevOp) (hs : Inv s) :
    Inv (run s ops) := by
  induction ops generalizing s with
  | nil => exact hs
  | cons op ops ih => exact ih _ (inv_apply_op op s hs)

/-- Every state reached from the initial state by public operations
satisfies the invariant. -/
theorem inv_reachable (cap : Nat) (n : Int) (ops : List ElevOp) :
    Inv (run (initElevator cap n) ops) :=
  inv_run _ ops (inv_init cap n)

/-! ### Frame: `floors_count` and `max_capacity` are never mutated -/

theorem frame_open_the_doors (s : ElevatorState) :
    frame (open_the_doors s).1 = frame s := by
  unfold open_the_doors
  split_ifs <;> rfl

theorem frame_arrival_check (s : ElevatorState) :
    frame (arrival_check s).1 = frame s := by
  unfold arrival_check
  split
  · exact frame_open_the_doors (stop_moving s)
  · rfl

theorem frame_move_phase1 (s : ElevatorState) : frame (move_phase1 s) = frame s := by
  unfold move_phase1
  split <;> rfl

theorem frame_move_step (t : ElevatorState) : frame (move_step t) = frame t := by
  unfold move_step
  split_ifs <;> rfl

theorem frame_start_moving (s : ElevatorState) :
    frame (start_moving s).1 = frame s := by
  unfold start_moving
  split_ifs <;> rfl

theorem frame_move (s : ElevatorState) : frame (move s).1 = frame s := by
  unfold move
  split
  · exact (frame_arrival_check _).trans (frame_move_phase1 s)
  · rcases h : start_moving (move_phase1 s) with ⟨s3, e⟩
    have h3 : frame s3 = frame s := by
      have := frame_start_moving (move_phase1 s)
      rw [h] at this
      exact this.trans (frame_move_phase1 s)
    cases e
    · dsimp only
      exact (frame_arrival_check _).trans ((frame_move_step s3).trans h3)
    · dsimp only
      exact h3

theorem frame_call_floor_insert (f : Int) (s : ElevatorState) :
    frame (call_floor_insert f s) = frame s := by
  unfold call_floor_insert
  split <;> rfl

theorem frame_call_floor (f : Int) (s : ElevatorState) :
    frame (call_floor f s).1 = frame s := by
  unfold call_floor
  split_ifs
  · rfl
  · exact (frame_open_the_doors _).trans (frame_call_floor_insert f s)
  · exact frame_call_floor_insert f s
  · exact frame_call_floor_insert f s

theorem frame_append_passenger (p : Passenger) (s : ElevatorState) :
    frame (append_passenger p s).1 = frame s := by
  unfold append_passenger
  split_ifs <;> rfl

theorem frame_remove_passenger (p : Passenger) (s : ElevatorState) :
    frame (remove_passenger p s).1 = frame s := by
  unfold remove_passenger
  split_ifs <;> rfl

theorem frame_apply_op (op : ElevOp) (s : ElevatorState) :
    frame (apply_op op s) = frame s := by
  cases op with
  | callFloor f => exact frame_call_floor f s
  | moveOp => exact frame_move s
  | appendPassenger p => exact frame_append_passenger p s
  | removePassenger p => exact frame_remove_passenger p s

theorem frame_run (s : ElevatorState) (ops : List ElevOp) :
    frame (run s ops) = frame s := by
  induction ops generalizing s with
  | nil => rfl
  | cons op ops ih => exact (ih _).trans (frame_apply_op op s)

theorem run_floors_count (cap : Nat) (n : Int) (ops : List ElevOp) :
    (run (initElevator cap n) ops).floors_count = n :=
  congrArg Prod.fst (frame_run (initElevator cap n) ops)

theorem run_max_capacity (cap : Nat) (n : Int) (ops : List ElevOp) :
    (run (initElevator cap n) ops).max_capacity = cap :=
  congrArg Prod.snd (frame_run (initElevator cap n) ops)

/-! ### Characterization of `move` -/

@[simp] theorem move_step_queue (t : ElevatorState) : (move_step t).queue = t.queue := by
  unfold move_step
  split_ifs <;> rfl

@[simp] theorem move_step_is_open (t : ElevatorState) :
    (move_step t).is_open = t.is_open := by
  unfold move_step
  split_ifs <;> rfl

@[simp] theorem move_step_is_moving (t : ElevatorState) :
    (move_step t).is_moving = t.is_moving := by
  unfold move_step
  split_ifs <;> rfl

/-- The arrival step either stops, removes the floor and opens, or leaves
the state untouched, according to whether the current floor is queued. -/
theorem arrival_check_spec (s : ElevatorState) :
    (s.current_floor ∈ s.queue ∧
      arrival_check s =
        ({ s with
            queue := s.queue.erase s.current_floor,
            is_open := true,
            is_moving := false }, none)) ∨
    (s.current_floor ∉ s.queue ∧ arrival_check s = (s, none)) := by
  unfold arrival_check
  split
  next h =>
    left
    refine ⟨h, ?_⟩
    unfold open_the_doors stop_moving
    simp [h]
  next h => exact Or.inr ⟨h, rfl⟩

/-- After a `move`, either the floor reached is queued and the elevator has
stopped with open doors, or it is not queued and the doors are closed. -/
theorem move_cases (s : ElevatorState) :
    ((move1 s).current_floor ∈ s.queue ∧ (move1 s).is_open = true ∧
      (move1 s).is_moving = false) ∨
    ((move1 s).current_floor ∉ s.queue ∧ (move1 s).is_open = false) := by
  unfold move1 move
  split
  · rcases arrival_check_spec (move_phase1 s) with ⟨hm, he⟩ | ⟨hm, he⟩
    · rw [he]
      left
      dsimp only
      refine ⟨?_, rfl, rfl⟩
      rw [move_phase1_queue] at hm
      exact hm
    · rw [he]
      right
      dsimp only
      refine ⟨?_, move_phase1_is_open s⟩
      rw [move_phase1_queue] at hm
      exact hm
  · have hopen := move_phase1_is_open s
    have hsm : start_moving (move_phase1 s) =
        ({ move_phase1 s with is_moving := true }, none) := by
      simp [start_moving, hopen]
    rw [hsm]
    dsimp only
    have hq : (move_step { move_phase1 s with is_moving := true }).queue = s.queue := by
      rw [move_step_queue]
      exact move_phase1_queue s
    rcases arrival_check_spec (move_step { move_phase1 s with is_moving := true })
      with ⟨hm, he⟩ | ⟨hm, he⟩
    · rw [he]
      left
      dsimp only
      refine ⟨?_, rfl, rfl⟩
      rw [hq] at hm
      exact hm
    · rw [he]
      right
      dsimp only
      constructor
      · rw [hq] at hm
        exact hm
      · rw [move_step_is_open]
        exact hopen

/-- `move` stops the elevator and opens the doors exactly when the floor
reached at the end of the step is in the queue. -/
theorem move_stop_iff (s : ElevatorState) :
    ((move1 s).is_open = true ∧ (move1 s).is_moving = false) ↔
    (move1 s).current_floor ∈ s.queue := by
  rcases move_cases s with ⟨hm, ho, hv⟩ | ⟨hm, ho⟩
  · exact ⟨fun _ => hm, fun _ => ⟨ho, hv⟩⟩
  · constructor
    · intro h
      rw [ho] at h
      cases h.1
    · intro h
      exact absurd h hm

theorem move_phase1_bounds (s : ElevatorState) (hs : Inv s)
    (hdir : (move_phase1 s).direction ≠ ElevatorDirection.IDLE) :
    1 ≤ (move_phase1 s).floors_count ∧
    (move_phase1 s).current_floor ≤ (move_phase1 s).floors_count := by
  have hs2 := inv_move_phase1 s hs
  have hqne := move_phase1_queue_ne_nil s hdir
  have hn : 1 ≤ (move_phase1 s).floors_count := by
    rcases hq : (move_phase1 s).queue with _ | ⟨q0, qs⟩
    · exact absurd hq hqne
    · have := hs2.queue_range q0 (by rw [hq]; exact List.mem_cons_self q0 qs)
      omega
  refine ⟨hn, ?_⟩
  rcases hs2.floor_ub with h | h
  · exact h
  · omega

theorem move_step_current_bound (t : ElevatorState) (_hn : 1 ≤ t.floors_count)
    (hlb : 1 ≤ t.current_floor) (hub : t.current_floor ≤ t.floors_count) :
    (move_step t).current_floor - t.current_floor ≤ 1 ∧
    t.current_floor - (move_step t).current_floor ≤ 1 := by
  unfold move_step
  split_ifs <;> (try dsimp only [move_up, move_down]) <;> omega

theorem move_step_phase1_bound (s : ElevatorState)
    (hn : 1 ≤ (move_phase1 s).floors_count)
    (hlb : 1 ≤ (move_phase1 s).current_floor)
    (hub : (move_phase1 s).current_floor ≤ (move_phase1 s).floors_count) :
    (move_step { move_phase1 s with is_moving := true }).current_floor -
      s.current_floor ≤ 1 ∧
    s.current_floor -
      (move_step { move_phase1 s with is_moving := true }).current_floor ≤ 1 := by
  have h := move_step_current_bound { move_phase1 s with is_moving := true } hn hlb hub
  have hc : ({ move_phase1 s with is_moving := true } : ElevatorState).current_floor =
      s.current_floor := move_phase1_current_floor s
  omega

/-- From a reachable state a `move` changes the current floor by at most
one in either direction. -/
theorem move_delta (s : ElevatorState) (hs : Inv s) :
    (move1 s).current_floor - s.current_floor ≤ 1 ∧
    s.current_floor - (move1 s).current_floor ≤ 1 := by
  unfold move1 move
  split
  · rcases arrival_check_spec (move_phase1 s) with ⟨_, he⟩ | ⟨_, he⟩ <;>
      rw [he] <;> (try dsimp only) <;> rw [move_phase1_current_floor] <;> omega
  next hdir =>
    have hopen := move_phase1_is_open s
    have hsm : start_moving (move_phase1 s) =
        ({ move_phase1 s with is_moving := true }, none) := by
      simp [start_moving, hopen]
    rw [hsm]
    dsimp only
    obtain ⟨hn, hub⟩ := move_phase1_bounds s hs hdir
    have hlb := (inv_move_phase1 s hs).floor_lb
    have hstep := move_step_phase1_bound s hn hlb hub
    rcases arrival_check_spec (move_step { move_phase1 s with is_moving := true })
      with ⟨_, he⟩ | ⟨_, he⟩ <;> rw [he] <;>
        (try dsimp only at hstep ⊢) <;> omega

/-! ### Duplicate-freedom of the queue under each operation -/

theorem nodup_open_the_doors (s : ElevatorState) (h : s.queue.Nodup) :
    (open_the_doors s).1.queue.Nodup := by
  unfold open_the_doors
  split_ifs
  · exact h
  · exact h.erase _
  · exact h

theorem nodup_arrival_check (s : ElevatorState) (h : s.queue.Nodup) :
    (arrival_check s).1.queue.Nodup := by
  unfold arrival_check
  split
  · exact nodup_open_the_doors (stop_moving s) h
  · exact h

theorem nodup_call_floor_insert (f : Int) (s : ElevatorState) (h : s.queue.Nodup) :
    (call_floor_insert f s).queue.Nodup := by
  unfold call_floor_insert
  split
  next hc => exact sortByKey_nodup _ _ (by simp [List.nodup_append, h, hc.1])
  · exact h

theorem nodup_call_floor (f : Int) (s : ElevatorState) (h : s.queue.Nodup) :
    (call_floor f s).1.queue.Nodup := by
  unfold call_floor
  split_ifs
  · exact h
  · apply nodup_open_the_doors
    rw [update_direction_queue]
    exact nodup_call_floor_insert f s h
  · rw [show ((update_direction (call_floor_insert f s), (none : Option ElevErr))).1 =
      update_direction (call_floor_insert f s) from rfl, update_direction_queue]
    exact nodup_call_floor_insert f s h
  · exact nodup_call_floor_insert f s h

theorem nodup_move (s : ElevatorState) (h : s.queue.Nodup) :
    (move s).1.queue.Nodup := by
  unfold move
  split
  · apply nodup_arrival_check
    rw [move_phase1_queue]
    exact h
  · rcases hsm : start_moving (move_phase1 s) with ⟨s3, e⟩
    have h3 : s3.queue.Nodup := by
      have hq : (start_moving (move_phase1 s)).1.queue = (move_phase1 s).queue := by
        unfold start_moving
        split_ifs <;> rfl
      rw [hsm] at hq
      rw [show (s3, e).1 = s3 from rfl] at hq
      rw [hq, move_phase1_queue]
      exact h
    cases e with
    | none =>
      dsimp only
      apply nodup_arrival_check
      rw [move_step_queue]
      exact h3
    | some e =>
      dsimp only
      exact h3

theorem nodup_apply_op (op : ElevOp) (s : ElevatorState) (h : s.queue.Nodup) :
    (apply_op op s).queue.Nodup := by
  cases op with
  | callFloor f => exact nodup_call_floor f s h
  | moveOp => exact nodup_move s h
  | appendPassenger p =>
    dsimp only [apply_op]
    unfold append_passenger
    split_ifs <;> exact h
  | removePassenger p =>
    dsimp only [apply_op]
    unfold remove_passenger
    split_ifs <;> exact h

theorem pairwise_and (R S : Int → Int → Prop) :
    ∀ l : List Int, l.Pairwise R → l.Pairwise S →
      l.Pairwise fun a b => R a b ∧ S a b
  | [], _, _ => List.Pairwise.nil
  | x :: xs, hR, hS => by
    rcases List.pairwise_cons.1 hR with ⟨hR1, hR2⟩
    rcases List.pairwise_cons.1 hS with ⟨hS1, hS2⟩
    exact List.pairwise_cons.2
      ⟨fun b hb => ⟨hR1 b hb, hS1 b hb⟩, pairwise_and R S xs hR2 hS2⟩

/-! ### The claims -/

/-- C1: for every current floor, direction Up or Down, and queue of
distinct in-range floors, `_sort_queue` orders the queue ascending by the
key `d*(f-c)` when positive, else `d*(c-f) + floors_count`; in particular
with floors_count 20, current floor 10, direction Up, the queue
`[15, 12, 17, 3, 8]` sorts to `[12, 15, 17, 8, 3]`. -/
theorem C1_sort_queue_ascending_by_key :
    (∀ s : ElevatorState,
      (s.direction = ElevatorDirection.UP ∨ s.direction = ElevatorDirection.DOWN) →
      s.queue.Nodup →
      (∀ f, f ∈ s.queue → 1 ≤ f ∧ f ≤ s.floors_count) →
      List.Perm (sort_queue s).queue s.queue ∧
      (sort_queue s).queue.Pairwise (fun a b =>
        key_func s.direction.value s.current_floor s.floors_count a <
        key_func s.direction.value s.current_floor s.floors_count b)) ∧
    (sort_queue c1Scenario).queue = [12, 15, 17, 8, 3] := by
  constructor
  · intro s hd hnd hrange
    have hperm : List.Perm (sort_queue s).queue s.queue := sortByKey_perm _ _
    refine ⟨hperm, ?_⟩
    have hle := sortByKey_pairwise
      (key_func s.direction.value s.current_floor s.floors_count) s.queue
    have hnd2 : (sort_queue s).queue.Nodup := hperm.nodup_iff.2 hnd
    have hcomb := pairwise_and _ _ (sort_queue s).queue hle hnd2
    refine List.Pairwise.imp_of_mem ?_ hcomb
    intro a b ha hb hab
    have ha2 := hrange a (hperm.mem_iff.1 ha)
    have hb2 := hrange b (hperm.mem_iff.1 hb)
    have hdv : s.direction.value = 1 ∨ s.direction.value = -1 := by
      rcases hd with h | h <;> rw [h]
      · exact Or.inl rfl
      · exact Or.inr rfl
    rcases lt_or_eq_of_le hab.1 with h | h
    · exact h
    · exact absurd (key_func_inj _ _ _ _ _ hdv ha2.1 ha2.2 hb2.1 hb2.2 h) hab.2
  · decide

/-- Witness for C1 at the spec scenario. -/
theorem C1_witness :
    List.Perm (sort_queue c1Scenario).queue c1Scenario.queue ∧
    (sort_queue c1Scenario).queue.Pairwise (fun a b =>
      key_func c1Scenario.direction.value c1Scenario.current_floor
        c1Scenario.floors_count a <
      key_func c1Scenario.direction.value c1Scenario.current_floor
        c1Scenario.floors_count b) :=
  C1_sort_queue_ascending_by_key.1 c1Scenario (by decide) (by decide) (by decide)

/-- C2: from any reachable state, `move()` changes the current floor by at
most one, and the elevator stops with open doors exactly when the floor
reached at the end of the step is in the queue; the end-to-end scenario
from floor 1 with queue `[5, 7, 10]` reaches floor 2 moving after 1 call,
floor 5 with open doors after 4 calls, then serves 7 and 10 and ends
IDLE with an empty queue. -/
theorem C2_move_single_step_and_stops :
    (∀ (cap : Nat) (n : Int) (ops : List ElevOp),
      (move1 (run (initElevator cap n) ops)).current_floor -
        (run (initElevator cap n) ops).current_floor ≤ 1 ∧
      (run (initElevator cap n) ops).current_floor -
        (move1 (run (initElevator cap n) ops)).current_floor ≤ 1) ∧
    (∀ s : ElevatorState,
      ((move1 s).is_open = true ∧ (move1 s).is_moving = false) ↔
      (move1 s).current_floor ∈ s.queue) ∧
    ((moveN 1 c2Start).current_floor = 2 ∧ (moveN 1 c2Start).is_moving = true ∧
      (moveN 1 c2Start).direction = ElevatorDirection.UP ∧
      (moveN 1 c2Start).is_open = false) ∧
    ((moveN 4 c2Start).current_floor = 5 ∧ (moveN 4 c2Start).is_open = true) ∧
    ((moveN 6 c2Start).current_floor = 7 ∧ (moveN 6 c2Start).is_open = true) ∧
    ((moveN 9 c2Start).current_floor = 10 ∧ (moveN 9 c2Start).is_open = true) ∧
    (moveN 10 c2Start).direction = ElevatorDirection.IDLE ∧
    (moveN 10 c2Start).queue = [] := by
  refine ⟨?_, move_stop_iff, ?_, ?_, ?_, ?_, ?_, ?_⟩
  · intro cap n ops
    exact move_delta _ (inv_reachable cap n ops)
  all_goals decide

/-- C3: for every elevator built with `floors_count ≥ 1` and every
sequence of public operations, `1 ≤ current_floor ≤ floors_count` holds. -/
theorem C3_current_floor_in_range (cap : Nat) (n : Int) (ops : List ElevOp)
    (hn : 1 ≤ n) :
    1 ≤ (run (initElevator cap n) ops).current_floor ∧
    (run (initElevator cap n) ops).current_floor ≤ n := by
  have hs := inv_reachable cap n ops
  have hfc := run_floors_count cap n ops
  refine ⟨hs.floor_lb, ?_⟩
  rcases hs.floor_ub with h | h
  · rw [hfc] at h
    exact h
  · omega

/-- Witness for C3. -/
theorem C3_witness :
    1 ≤ (run (initElevator 8 10) [ElevOp.callFloor 5, ElevOp.moveOp]).current_floor ∧
    (run (initElevator 8 10) [ElevOp.callFloor 5, ElevOp.moveOp]).current_floor ≤ 10 :=
  C3_current_floor_in_range 8 10 [ElevOp.callFloor 5, ElevOp.moveOp] (by decide)

/-- C4: in every reachable state, `is_moving` and `is_open` are never both
true. -/
theorem C4_never_moving_with_open_doors (cap : Nat) (n : Int) (ops : List ElevOp) :
    ((run (initElevator cap n) ops).is_moving &&
      (run (initElevator cap n) ops).is_open) = false := by
  rcases (inv_reachable cap n ops).excl with h | h <;> rw [h] <;> simp

/-- C5 counterexample: after `call_floor(2)` and one `move()` from the
initial 10-floor elevator, the queue is empty but the stored direction is
still UP, refuting the claimed equivalence. -/
theorem C5_counterexample :
    ¬(((run (initElevator 8 10) [ElevOp.callFloor 2, ElevOp.moveOp]).direction =
        ElevatorDirection.IDLE) ↔
      ((run (initElevator 8 10) [ElevOp.callFloor 2, ElevOp.moveOp]).queue = [])) := by
  decide

/-- C5 (amended): in every reachable state, if the stored direction is
IDLE then the queue is empty; the converse fails because serving the last
queued floor empties the queue while the direction stays UP/DOWN until
the next `move()` recomputes it. -/
theorem C5_idle_direction_implies_empty_queue (cap : Nat) (n : Int)
    (ops : List ElevOp)
    (h : (run (initElevator cap n) ops).direction = ElevatorDirection.IDLE) :
    (run (initElevator cap n) ops).queue = [] :=
  (inv_reachable cap n ops).idle_empty h

/-- Witness for the amended C5. -/
theorem C5_witness : (run (initElevator 8 10) []).queue = [] :=
  C5_idle_direction_implies_empty_queue 8 10 [] (by decide)

/-- C6: `call_floor(floor)` raises `FloorOutOfRange` iff
`floor < 1 ∨ floor > floors_count`, and in that case the whole elevator
state is unchanged. -/
theorem C6_call_floor_range_check (s : ElevatorState) (f : Int) :
    ((call_floor f s).2 = some ElevErr.floorOutOfRange ↔
      (f < 1 ∨ f > s.floors_count)) ∧
    ((f < 1 ∨ f > s.floors_count) → (call_floor f s).1 = s) := by
  by_cases hr : f < 1 ∨ f > s.floors_count
  · rw [call_floor_out_of_range f s hr]
    exact ⟨⟨fun _ => hr, fun _ => rfl⟩, fun _ => rfl⟩
  · refine ⟨⟨fun he => ?_, fun h => absurd h hr⟩, fun h => absurd h hr⟩
    exfalso
    unfold call_floor at he
    rw [if_neg hr] at he
    split at he
    · split at he
      · unfold open_the_doors at he
        split at he
        · simp at he
        · split at he
          · simp at he
          · simp at he
      · simp at he
    · simp at he

/-- Witness for C6: `call_floor(0)` and `call_floor(25)` with
floors_count 20 both raise `FloorOutOfRange` and leave the state
unchanged. -/
theorem C6_witness :
    (call_floor 0 (initElevator 8 20)).1 = initElevator 8 20 ∧
    (call_floor 25 (initElevator 8 20)).1 = initElevator 8 20 ∧
    (call_floor 0 (initElevator 8 20)).2 = some ElevErr.floorOutOfRange ∧
    (call_floor 25 (initElevator 8 20)).2 = some ElevErr.floorOutOfRange :=
  ⟨(C6_call_floor_range_check (initElevator 8 20) 0).2 (by decide),
   (C6_call_floor_range_check (initElevator 8 20) 25).2 (by decide),
   (C6_call_floor_range_check (initElevator 8 20) 0).1.2 (by decide),
   (C6_call_floor_range_check (initElevator 8 20) 25).1.2 (by decide)⟩

/-- C7: `append_passenger` fails with `ElevatorFull` at capacity, else
`DoorsClosed` when the doors are closed, else `FloorMismatch` when the
passenger is on another floor, and otherwise adds the passenger; every
error leaves the state unchanged, and `|passengers| ≤ max_capacity` holds
in every reachable state. -/
theorem C7_append_passenger_checks (s : ElevatorState) (p : Passenger) :
    (s.passengers.length = s.max_capacity →
      append_passenger p s = (s, some ElevErr.elevatorFull)) ∧
    (s.passengers.length ≠ s.max_capacity → s.is_open = false →
      append_passenger p s = (s, some ElevErr.doorsClosed)) ∧
    (s.passengers.length ≠ s.max_capacity → s.is_open = true →
      s.current_floor ≠ p.current_floor →
      append_passenger p s = (s, some ElevErr.floorsMismatch)) ∧
    (s.passengers.length ≠ s.max_capacity → s.is_open = true →
      s.current_floor = p.current_floor →
      (append_passenger p s).2 = none ∧
      p ∈ (append_passenger p s).1.passengers) ∧
    (∀ (cap : Nat) (n : Int) (ops : List ElevOp),
      (run (initElevator cap n) ops).passengers.length ≤ cap) := by
  refine ⟨?_, ?_, ?_, ?_, ?_⟩
  · intro h
    unfold append_passenger
    rw [if_pos h]
  · intro h1 h2
    unfold append_passenger
    rw [if_neg h1, if_pos h2]
  · intro h1 h2 h3
    unfold append_passenger
    rw [if_neg h1, if_neg (by rw [h2]; simp), if_pos h3]
  · intro h1 h2 h3
    unfold append_passenger
    rw [if_neg h1, if_neg (by rw [h2]; simp), if_neg (by simp [h3])]
    refine ⟨rfl, ?_⟩
    dsimp only
    split
    next hmem => exact hmem
    · exact List.mem_append.2 (Or.inr (List.mem_singleton.2 rfl))
  · intro cap n ops
    have h := (inv_reachable cap n ops).cap_le
    rw [run_max_capacity cap n ops] at h
    exact h

/-- Witness for C7: boarding a zero-capacity elevator fails with
`ElevatorFull`. -/
theorem C7_witness :
    append_passenger ⟨0, 1, 5⟩ (initElevator 0 10) =
      (initElevator 0 10, some ElevErr.elevatorFull) :=
  (C7_append_passenger_checks (initElevator 0 10) ⟨0, 1, 5⟩).1 (by decide)

/-- C8: the queue of every reachable state is duplicate-free, every public
operation preserves duplicate-freedom, and calling `call_floor(f)` twice
in a row with no intervening arrival at `f` (i.e. `f` still queued after
the first call) leaves the queue containing `f` exactly once. -/
theorem C8_queue_never_has_duplicates :
    (∀ (cap : Nat) (n : Int) (ops : List ElevOp),
      (run (initElevator cap n) ops).queue.Nodup) ∧
    (∀ (op : ElevOp) (s : ElevatorState), s.queue.Nodup →
      (apply_op op s).queue.Nodup) ∧
    (∀ (cap : Nat) (n : Int) (ops : List ElevOp) (f : Int), 1 ≤ f → f ≤ n →
      f ∈ (call_floor f (run (initElevator cap n) ops)).1.queue →
      (call_floor f (call_floor f (run (initElevator cap n) ops)).1).1.queue.count f
        = 1) := by
  refine ⟨?_, nodup_apply_op, ?_⟩
  · intro cap n ops
    exact (inv_reachable cap n ops).nodup
  · intro cap n ops f hf1 hf2 hmem
    have hs1 : Inv (call_floor f (run (initElevator cap n) ops)).1 :=
      inv_call_floor f _ (inv_reachable cap n ops)
    have hdir : (call_floor f (run (initElevator cap n) ops)).1.direction ≠
        ElevatorDirection.IDLE := by
      intro hd
      rw [hs1.idle_empty hd] at hmem
      exact List.not_mem_nil f hmem
    have hn : (call_floor f (run (initElevator cap n) ops)).1.floors_count = n := by
      have h1 := congrArg Prod.fst
        (frame_call_floor f (run (initElevator cap n) ops))
      simp only [frame] at h1
      rw [h1, run_floors_count]
    have hcf := call_floor_not_idle f (call_floor f (run (initElevator cap n) ops)).1
      hdir hf1 (by rw [hn]; exact hf2)
    rw [hcf]
    dsimp only
    rw [call_floor_insert_of_mem f _ hmem]
    exact List.count_eq_one_of_mem hs1.nodup hmem

/-- Witness for C8: two consecutive `call_floor(3)` calls on a fresh
elevator leave floor 3 queued exactly once. -/
theorem C8_witness :
    (call_floor 3 (call_floor 3 (run (initElevator 8 10) [])).1).1.queue.count 3
      = 1 :=
  C8_queue_never_has_duplicates.2.2 8 10 [] 3 (by decide) (by decide) (by decide)

/-- C9: when `call_floor(floor)` is invoked in a reachable state whose
stored direction is IDLE and whose current floor equals the in-range
requested floor, the recomputed direction is still IDLE and the doors
open within the `call_floor` call itself: `is_open` becomes true, the
floor is removed from the queue, and no exception is raised. -/
theorem C9_idle_call_at_current_floor_opens_doors (cap : Nat) (n : Int)
    (ops : List ElevOp) (f : Int)
    (hidle : (run (initElevator cap n) ops).direction = ElevatorDirection.IDLE)
    (hf1 : 1 ≤ f) (hf2 : f ≤ n)
    (hcur : (run (initElevator cap n) ops).current_floor = f) :
    (update_direction (call_floor_insert f (run (initElevator cap n) ops))).direction
      = ElevatorDirection.IDLE ∧
    (call_floor f (run (initElevator cap n) ops)).1.is_open = true ∧
    f ∉ (call_floor f (run (initElevator cap n) ops)).1.queue ∧
    (call_floor f (run (initElevator cap n) ops)).2 = none := by
  have hs := inv_reachable cap n ops
  have hq := hs.idle_empty hidle
  have hmov : (run (initElevator cap n) ops).is_moving = false := by
    cases h : (run (initElevator cap n) ops).is_moving
    · rfl
    · exact absurd hidle (hs.moving_dir h)
  have hfc := run_floors_count cap n ops
  have hres := call_floor_idle_here f (run (initElevator cap n) ops) hq hmov hidle
    hf1 (by rw [hfc]; exact hf2) hcur
  refine ⟨?_, ?_, ?_, ?_⟩
  · have hins : call_floor_insert f (run (initElevator cap n) ops) =
        sort_queue { run (initElevator cap n) ops with
          queue := (run (initElevator cap n) ops).queue ++ [f] } :=
      call_floor_insert_of_not_mem f _ (by rw [hq]; exact List.not_mem_nil f)
        (by omega)
    rw [hins]
    simp only [update_direction_direction]
    unfold new_direction
    rw [show (sort_queue { run (initElevator cap n) ops with
        queue := (run (initElevator cap n) ops).queue ++ [f] }).queue = [f] from by
      simp [sort_queue, hq, sortByKey_singleton]]
    simp [sort_queue, hcur, hidle]
  · rw [hres]
  · rw [hres]
    dsimp only
    exact List.not_mem_nil f
  · rw [hres]

/-- Witness for C9: `call_floor(1)` on the initial elevator. -/
theorem C9_witness :
    (update_direction (call_floor_insert 1 (run (initElevator 8 10) []))).direction
      = ElevatorDirection.IDLE ∧
    (call_floor 1 (run (initElevator 8 10) [])).1.is_open = true ∧
    1 ∉ (call_floor 1 (run (initElevator 8 10) [])).1.queue ∧
    (call_floor 1 (run (initElevator 8 10) [])).2 = none :=
  C9_idle_call_at_current_floor_opens_doors 8 10 [] 1 (by decide) (by decide)
    (by decide) (by decide)

/-- C10: `Passenger.enter_elevator` is not atomic: with open doors at the
passenger's floor and spare capacity, an out-of-range destination makes
`enter_elevator` first add the passenger, then raise `FloorOutOfRange`
from `call_floor`, leaving the passenger aboard with no stop queued. -/
theorem C10_enter_elevator_not_atomic (s : ElevatorState) (p : Passenger)
    (hopen : s.is_open = true)
    (hcap : s.passengers.length ≠ s.max_capacity)
    (hfl : s.current_floor = p.current_floor)
    (hdest : p.destination_floor < 1 ∨ p.destination_floor > s.floors_count) :
    (enter_elevator p s).2 = some ElevErr.floorOutOfRange ∧
    p ∈ (enter_elevator p s).1.passengers ∧
    (enter_elevator p s).1.queue = s.queue := by
  have happ : append_passenger p s =
      ({ s with
          passengers :=
            if p ∈ s.passengers then s.passengers else s.passengers ++ [p] },
        none) := by
    unfold append_passenger
    rw [if_neg hcap, if_neg (by rw [hopen]; simp), if_neg (by simp [hfl])]
  unfold enter_elevator
  rw [happ]
  dsimp only
  rw [call_floor_out_of_range p.destination_floor
    { s with
        passengers :=
          if p ∈ s.passengers then s.passengers else s.passengers ++ [p] }
    hdest]
  refine ⟨rfl, ?_, rfl⟩
  dsimp only
  split
  next hmem => exact hmem
  · exact List.mem_append.2 (Or.inr (List.mem_singleton.2 rfl))

/-- Witness for C10: a passenger with destination 99 in a 10-floor
elevator with open doors at floor 1. -/
theorem C10_witness :
    (enter_elevator ⟨0, 1, 99⟩ c10State).2 = some ElevErr.floorOutOfRange ∧
    (⟨0, 1, 99⟩ : Passenger) ∈ (enter_elevator ⟨0, 1, 99⟩ c10State).1.passengers ∧
    (enter_elevator ⟨0, 1, 99⟩ c10State).1.queue = c10State.queue :=
  C10_enter_elevator_not_atomic c10State ⟨0, 1, 99⟩ (by decide) (by decide)
    (by decide) (by decide)

end ElevatorSystem
